import Mathlib

/-!
Shallow embedding of `sleap/nn/data/edge_maps.py` (part affinity field
generation) and verification of its specification.

Coordinates are modelled as exact rationals (`ℚ × ℚ`): the geometric core
(`distance_to_edge`, the in-image filter, edge-point gathering) is purely
algebraic, so its computation is embedded exactly.  The Gaussian confidence
map uses the real exponential (`Real.exp`), so everything downstream of
`gaussian_pdf` lives in `ℝ`.  Floating-point NaN — which in the source arises
only from the `0/0` division when a zero-length edge is normalized in
`make_pafs` — is modelled by `Option`: `none` is NaN, `some v` a finite value.

Tensors are modelled as nested lists, with the axis order of the source:
a confidence-map tensor is `List (List (List ℝ))` indexed `[y][x][edge]`,
a PAF tensor is `List (List (List (ℝ × ℝ)))` indexed `[y][x][edge]` with the
pair holding the x/y vector components.
-/

namespace Sleap

/-- Squared Euclidean norm of a 2D vector. -/
def sqnorm (v : ℚ × ℚ) : ℚ := v.1 * v.1 + v.2 * v.2

/-- Dot product of two 2D vectors. -/
def dot (u v : ℚ × ℚ) : ℚ := u.1 * v.1 + u.2 * v.2

/-- Componentwise difference of two 2D vectors. -/
def vsub (u v : ℚ × ℚ) : ℚ × ℚ := (u.1 - v.1, u.2 - v.2)

/-- Scalar times a 2D vector. -/
def smul (t : ℚ) (v : ℚ × ℚ) : ℚ × ℚ := (t * v.1, t * v.2)

/-- Embedding of `tf.clip_by_value x 0 1`. -/
def clip01 (t : ℚ) : ℚ := min (max t 0) 1

/-- Embedding of `distance_to_edge` (edge_maps.py lines 16-79) for a single
point/edge pair; the tensor version broadcasts this over all pairs.
Computes the direction vector, the squared edge length clamped below at 1
(`tf.maximum(..., 1)`), the scalar projection of `point - source` onto the
direction vector normalized by the clamped squared length, clips it to
`[0, 1]`, and returns the squared distance from the point to the clipped
projection point. -/
def distance_to_edge (point edge_source edge_destination : ℚ × ℚ) : ℚ :=
  sqnorm (vsub
    (smul
      (clip01 (dot (vsub point edge_source) (vsub edge_destination edge_source) /
        max (sqnorm (vsub edge_destination edge_source)) 1))
      (vsub edge_destination edge_source))
    (vsub point edge_source))

/-- Broadcast form of `distance_to_edge`: for every query point and every
edge (given by paired source/destination endpoint lists), the squared
distance of that point to that edge. -/
def distance_to_edge_all (points edge_sources edge_destinations : List (ℚ × ℚ)) :
    List (List ℚ) :=
  points.map fun p =>
    List.zipWith (fun s d => distance_to_edge p s d) edge_sources edge_destinations

/-- Written from the spec's words, for comparison with `distance_to_edge`:
the standard squared point-to-segment distance.  The scalar projection is
normalized by the true squared edge length and clipped to `[0, 1]`; a
zero-length edge degenerates to the squared point-to-source distance. -/
def segment_distance_spec (point edge_source edge_destination : ℚ × ℚ) : ℚ :=
  if sqnorm (vsub edge_destination edge_source) = 0 then
    sqnorm (vsub point edge_source)
  else
    sqnorm (vsub
      (smul
        (clip01 (dot (vsub point edge_source) (vsub edge_destination edge_source) /
          sqnorm (vsub edge_destination edge_source)))
        (vsub edge_destination edge_source))
      (vsub point edge_source))

/-- A point lies on the closed segment from `s` to `d`. -/
def OnSegment (p s d : ℚ × ℚ) : Prop :=
  ∃ t : ℚ, 0 ≤ t ∧ t ≤ 1 ∧ p = (s.1 + t * (d.1 - s.1), s.2 + t * (d.2 - s.2))

/-- Modelled from the spec: `gaussian_pdf` (from `sleap.nn.data.utils`, not
among the sources) maps a squared distance `x` to the unnormalized Gaussian
confidence `exp(-x / (2 * sigma^2))`, so that a point at Euclidean distance
`r` from an edge (squared distance `x = r²`) gets confidence
`exp(-r² / (2*sigma²))`. -/
noncomputable def gaussian_pdf (x : ℚ) (sigma : ℝ) : ℝ :=
  Real.exp (-(x : ℝ) / (2 * sigma ^ 2))

/-- Embedding of `make_edge_maps` (edge_maps.py lines 82-116): the sampling
grid is the meshgrid of `xv` and `yv` (cell `[iy][ix]` holds the point
`(xv[ix], yv[iy])`), the squared distances of every grid point to every edge
are mapped through `gaussian_pdf`. -/
noncomputable def make_edge_maps (xv yv : List ℚ)
    (edge_source edge_destination : List (ℚ × ℚ)) (sigma : ℝ) :
    List (List (List ℝ)) :=
  yv.map fun y => xv.map fun x =>
    List.zipWith (fun s d => gaussian_pdf (distance_to_edge (x, y) s d) sigma)
      edge_source edge_destination

/-- The normalized direction vector of `make_pafs` (edge_maps.py lines
150-151): `unit_vectors = d / ||d||`.  A zero-length edge has `d = (0, 0)`
and `||d|| = 0`, so both components are the floating-point division `0/0`,
i.e. NaN, modelled as `none`. -/
noncomputable def unit_vector (edge_source edge_destination : ℚ × ℚ) :
    Option (ℝ × ℝ) :=
  if sqnorm (vsub edge_destination edge_source) = 0 then none
  else
    some
      (((vsub edge_destination edge_source).1 : ℝ) /
          Real.sqrt ((sqnorm (vsub edge_destination edge_source) : ℝ)),
        ((vsub edge_destination edge_source).2 : ℝ) /
          Real.sqrt ((sqnorm (vsub edge_destination edge_source) : ℝ)))

/-- One grid cell of `make_pafs` (edge_maps.py lines 119-162): the edge
confidence at the cell times the unit direction vector.  A NaN direction
(zero-length edge) stays NaN under the multiplication. -/
noncomputable def make_pafs_val (x y : ℚ) (edge_source edge_destination : ℚ × ℚ)
    (sigma : ℝ) : Option (ℝ × ℝ) :=
  (unit_vector edge_source edge_destination).map fun u =>
    (gaussian_pdf (distance_to_edge (x, y) edge_source edge_destination) sigma * u.1,
      gaussian_pdf (distance_to_edge (x, y) edge_source edge_destination) sigma * u.2)

/-- Embedding of `make_pafs`: for each grid cell and edge, the
confidence-weighted unit direction vector (`none` = NaN). -/
noncomputable def make_pafs (xv yv : List ℚ)
    (edge_source edge_destination : List (ℚ × ℚ)) (sigma : ℝ) :
    List (List (List (Option (ℝ × ℝ)))) :=
  yv.map fun y => xv.map fun x =>
    List.zipWith (fun s d => make_pafs_val x y s d sigma) edge_source edge_destination

/-- Embedding of `tf.where(tf.math.is_nan(paf), 0.0, paf)` at one cell: a NaN entry
(`none`) contributes 0. -/
noncomputable def nan_to_zero (v : Option (ℝ × ℝ)) : ℝ × ℝ := v.getD (0, 0)

/-- Embedding of `tf.where(tf.math.is_nan(paf), 0.0, paf)` over a whole PAF tensor. -/
noncomputable def nan_to_zero_t (t : List (List (List (Option (ℝ × ℝ))))) :
    List (List (List (ℝ × ℝ))) :=
  t.map fun r => r.map fun c => c.map nan_to_zero

/-- Elementwise sum of two PAF tensors (`pafs += ...`). -/
def tensor_add (a b : List (List (List (ℝ × ℝ)))) : List (List (List (ℝ × ℝ))) :=
  List.zipWith (List.zipWith (List.zipWith (· + ·))) a b

/-- Embedding of `tf.zeros((grid_height, grid_width, n_edges, 2))`. -/
noncomputable def zeros_t (H W E : ℕ) : List (List (List (ℝ × ℝ))) :=
  List.replicate H (List.replicate W (List.replicate E (0, 0)))

/-- Embedding of `make_multi_pafs` (edge_maps.py lines 165-211): starting
from a zero tensor, accumulate each instance's PAF with NaN entries replaced
by 0.  `n_edges` models `tf.shape(edge_sources)[1]`, which the source reads
off the `[n_instances, n_edges, 2]` tensor's static shape (available even
with zero instances); in the list model it is passed explicitly. -/
noncomputable def make_multi_pafs (xv yv : List ℚ) (n_edges : ℕ)
    (edge_sources edge_destinations : List (List (ℚ × ℚ))) (sigma : ℝ) :
    List (List (List (ℝ × ℝ))) :=
  (List.zip edge_sources edge_destinations).foldl
    (fun acc sd => tensor_add acc (nan_to_zero_t (make_pafs xv yv sd.1 sd.2 sigma)))
    (zeros_t yv.length xv.length n_edges)

/-- One cell of a PAF tensor, with an all-zero default out of bounds. -/
noncomputable def paf_entry (t : List (List (List (ℝ × ℝ)))) (iy ix e : ℕ) : ℝ × ℝ :=
  ((t.getD iy []).getD ix []).getD e (0, 0)

/-- Tensor of shape `[H, W, E, 2]` (the pair is the last axis). -/
def TShape (t : List (List (List (ℝ × ℝ)))) (H W E : ℕ) : Prop :=
  t.length = H ∧
  ∀ (i : ℕ) (hi : i < t.length), t[i].length = W ∧
    ∀ (j : ℕ) (hj : j < t[i].length), t[i][j].length = E

/-- A skeleton: the directed edges as (source node, destination node) index
pairs (`skeleton.edge_inds`). -/
structure Skeleton where
  edge_inds : List (ℕ × ℕ)

/-- One input record of the PAF generator stream.  `image_height` and
`image_width` stand for `image.shape[0]` and `image.shape[1]` — the image
data itself is never read by this stage.  `skeleton_inds` is carried in the
record but never read by the current implementation. -/
structure Example where
  image_height : ℕ
  image_width : ℕ
  instances : List (List (ℚ × ℚ))
  skeleton_inds : List ℤ

/-- The `part_affinity_fields` value attached to a record:
`[grid_height, grid_width, n_edges, 2]` normally, or
`[grid_height, grid_width, n_edges*2]` when `flatten_channels` is set. -/
inductive PAFField where
  | unflat (t : List (List (List (ℝ × ℝ)))) : PAFField
  | flat (t : List (List (List ℝ))) : PAFField

/-- An output record: every field of the input record plus exactly one new
field, `part_affinity_fields`. -/
structure PAFExample extends Example where
  part_affinity_fields : PAFField

/-- Embedding of the `PartAffinityFieldsGenerator` attrs class
(edge_maps.py lines 240-264). -/
structure PartAffinityFieldsGenerator where
  sigma : ℝ
  output_stride : ℕ
  skeletons : List Skeleton
  flatten_channels : Bool

/-- Embedding of `get_edge_points` (edge_maps.py lines 214-237): gather the
source and destination keypoints of each instance along the configured
edges.  `tf.gather` with an out-of-range node index is an error the spec
requires to be caught at configuration time; the model totalizes it with a
default, which no claim exercises. -/
def get_edge_points (instances : List (List (ℚ × ℚ))) (edge_inds : List (ℕ × ℕ)) :
    List (List (ℚ × ℚ)) × List (List (ℚ × ℚ)) :=
  (instances.map fun inst => edge_inds.map fun e => inst.getD e.1 (0, 0),
    instances.map fun inst => edge_inds.map fun e => inst.getD e.2 (0, 0))

/-- Modelled from the spec: `make_grid_vectors` from `sleap.nn.data.utils`
is not among the sources.  Spec §3: the sampling grid is two coordinate
vectors with `coord[i] = i * stride + stride/2` (centered sampling) and
`len(xv) == ceil(image_width/stride)`, similarly for y.  Returns
`(xv, yv)`. -/
def make_grid_vectors (image_height image_width output_stride : ℕ) :
    List ℚ × List ℚ :=
  ((List.range ((image_width + output_stride - 1) / output_stride)).map
      fun i => (i : ℚ) * (output_stride : ℚ) + (output_stride : ℚ) / 2,
    (List.range ((image_height + output_stride - 1) / output_stride)).map
      fun i => (i : ℚ) * (output_stride : ℚ) + (output_stride : ℚ) / 2)

/-- One keypoint's in-image test (edge_maps.py lines 327-330, the reduction
over the coordinate axis): `(p > 0) & (p < [xv[-1], yv[-1]])` on x and y. -/
def in_img_point (xlast ylast : ℚ) (p : ℚ × ℚ) : Bool :=
  decide (0 < p.1) && decide (p.1 < xlast) && decide (0 < p.2) && decide (p.2 < ylast)

/-- One instance's in-image test (edge_maps.py line 330, the `reduce_any`
over the instance's points). -/
def in_img_instance (xlast ylast : ℚ) (inst : List (ℚ × ℚ)) : Bool :=
  inst.any (in_img_point xlast ylast)

/-- The in-frame filtering of `generate_pafs` (edge_maps.py line 332):
`xv[-1]` and `yv[-1]` are the last grid coordinates. -/
def filtered_instances (xv yv : List ℚ) (ex : Example) : List (List (ℚ × ℚ)) :=
  ex.instances.filter
    (in_img_instance (xv.getD (xv.length - 1) 0) (yv.getD (yv.length - 1) 0))

/-- The PAF tensor computed for one record by `generate_pafs`
(edge_maps.py lines 334-344). -/
noncomputable def record_pafs (sigma : ℝ) (xv yv : List ℚ)
    (edge_inds : List (ℕ × ℕ)) (ex : Example) : List (List (List (ℝ × ℝ))) :=
  make_multi_pafs xv yv edge_inds.length
    (get_edge_points (filtered_instances xv yv ex) edge_inds).1
    (get_edge_points (filtered_instances xv yv ex) edge_inds).2 sigma

/-- Embedding of `tf.reshape(pafs, [grid_height, grid_width, n_edges * 2])`: the last two
axes are flattened row-major, `[.., e, c] ↦ [.., e*2 + c]`. -/
def flatten_last_axes (t : List (List (List (ℝ × ℝ)))) : List (List (List ℝ)) :=
  t.map fun r => r.map fun c => c.flatMap fun v => [v.1, v.2]

/-- Embedding of the per-record mapping function `generate_pafs`
(edge_maps.py lines 324-353): the record passes through unchanged, with the
PAF tensor attached under the new `part_affinity_fields` field. -/
noncomputable def generate_pafs (sigma : ℝ) (xv yv : List ℚ)
    (edge_inds : List (ℕ × ℕ)) (flatten_channels : Bool) (ex : Example) :
    PAFExample :=
  { toExample := ex,
    part_affinity_fields :=
      if flatten_channels then
        PAFField.flat (flatten_last_axes (record_pafs sigma xv yv edge_inds ex))
      else PAFField.unflat (record_pafs sigma xv yv edge_inds ex) }

/-- Embedding of `PartAffinityFieldsGenerator.transform_dataset`
(edge_maps.py lines 276-359): the first record is inspected for the image
height and width (`next(iter(input_ds))`, a non-destructive peek — a
`tf.data.Dataset` is re-iterated by the subsequent `map`, so the record is
not lost); the edge indices come from `skeletons[0]`; every record of the
stream is then mapped through `generate_pafs`.  An empty stream makes
`next(iter(...))` raise, modelled as `none`. -/
noncomputable def transform_dataset (g : PartAffinityFieldsGenerator)
    (input_ds : List Example) : Option (List PAFExample) :=
  match input_ds with
  | [] => none
  | test_example :: _ =>
    some (input_ds.map (generate_pafs g.sigma
      (make_grid_vectors test_example.image_height test_example.image_width
        g.output_stride).1
      (make_grid_vectors test_example.image_height test_example.image_width
        g.output_stride).2
      ((g.skeletons.getD 0 ⟨[]⟩).edge_inds) g.flatten_channels))

/-- Shape `[H, W, E2]` of a flattened PAF tensor. -/
def TShapeFlat (t : List (List (List ℝ))) (H W E2 : ℕ) : Prop :=
  t.length = H ∧
  ∀ (i : ℕ) (hi : i < t.length), t[i].length = W ∧
    ∀ (j : ℕ) (hj : j < t[i].length), t[i][j].length = E2

theorem sqnorm_nonneg (v : ℚ × ℚ) : 0 ≤ sqnorm v := by
  have h1 : 0 ≤ v.1 * v.1 := mul_self_nonneg _
  have h2 : 0 ≤ v.2 * v.2 := mul_self_nonneg _
  simpa [sqnorm] using add_nonneg h1 h2

theorem sqnorm_eq_zero_iff (v : ℚ × ℚ) : sqnorm v = 0 ↔ v.1 = 0 ∧ v.2 = 0 := by
  constructor
  · intro h
    have h1 : 0 ≤ v.1 * v.1 := mul_self_nonneg _
    have h2 : 0 ≤ v.2 * v.2 := mul_self_nonneg _
    have hsum : v.1 * v.1 + v.2 * v.2 = 0 := h
    have e1 : v.1 * v.1 = 0 := le_antisymm (by linarith) h1
    have e2 : v.2 * v.2 = 0 := le_antisymm (by linarith) h2
    exact ⟨by simpa using mul_self_eq_zero.mp e1, by simpa using mul_self_eq_zero.mp e2⟩
  · rintro ⟨h1, h2⟩
    simp [sqnorm, h1, h2]

theorem distance_to_edge_nonneg (p s d : ℚ × ℚ) : 0 ≤ distance_to_edge p s d := by
  unfold distance_to_edge
  exact sqnorm_nonneg _

theorem vsub_self_shift (s d : ℚ × ℚ) (t : ℚ) :
    vsub (s.1 + t * (d.1 - s.1), s.2 + t * (d.2 - s.2)) s = smul t (vsub d s) := by
  simp only [vsub, smul, Prod.mk.injEq]
  exact ⟨by ring, by ring⟩

/-- C1: `distance_to_edge` computes, for each point-edge pair, the squared
distance to the clipped projection point with the normalizer
`max(squared length, 1)`; for squared length at least 1 it equals the
standard squared point-to-segment distance exactly, and for zero-length
edges it equals the squared point-to-source distance. -/
theorem distance_to_edge_correct (points ss ds : List (ℚ × ℚ)) (i j : ℕ)
    (hi : i < points.length) (hj : j < ss.length) (hj' : j < ds.length) :
    ((distance_to_edge_all points ss ds).getD i []).getD j 0 =
      distance_to_edge (points.getD i (0, 0)) (ss.getD j (0, 0)) (ds.getD j (0, 0)) ∧
    (∀ p s d : ℚ × ℚ, 1 ≤ sqnorm (vsub d s) →
      distance_to_edge p s d = segment_distance_spec p s d) ∧
    (∀ p s d : ℚ × ℚ, sqnorm (vsub d s) = 0 →
      distance_to_edge p s d = sqnorm (vsub p s)) := by
  refine ⟨?_, ?_, ?_⟩
  · have houter : i < (distance_to_edge_all points ss ds).length := by
      simpa [distance_to_edge_all] using hi
    rw [List.getD_eq_getElem _ _ houter]
    have hrow : (distance_to_edge_all points ss ds)[i] =
        List.zipWith (fun s d => distance_to_edge points[i] s d) ss ds := by
      simp [distance_to_edge_all]
    rw [hrow]
    have hinner : j < (List.zipWith (fun s d => distance_to_edge points[i] s d) ss ds).length := by
      simp [List.length_zipWith]
      omega
    rw [List.getD_eq_getElem _ _ hinner, List.getElem_zipWith,
      List.getD_eq_getElem _ _ hi, List.getD_eq_getElem _ _ hj, List.getD_eq_getElem _ _ hj']
  · intro p s d h
    have hne : sqnorm (vsub d s) ≠ 0 := (lt_of_lt_of_le one_pos h).ne'
    unfold distance_to_edge segment_distance_spec
    rw [max_eq_left h, if_neg hne]
  · intro p s d h
    obtain ⟨h1, h2⟩ := (sqnorm_eq_zero_iff _).mp h
    simp only [vsub] at h1 h2
    unfold distance_to_edge
    simp only [vsub, smul, dot, sqnorm, clip01, h1, h2]
    norm_num
    ring

/-- Witness for C1 at concrete inputs. -/
theorem distance_to_edge_correct_witness :
    (((distance_to_edge_all [(3, 4)] [(0, 0)] [(2, 0)]).getD 0 []).getD 0 0 =
      distance_to_edge (((3 : ℚ), (4 : ℚ))) ((0, 0)) ((2, 0)) ∧
    (∀ p s d : ℚ × ℚ, 1 ≤ sqnorm (vsub d s) →
      distance_to_edge p s d = segment_distance_spec p s d) ∧
    (∀ p s d : ℚ × ℚ, sqnorm (vsub d s) = 0 →
      distance_to_edge p s d = sqnorm (vsub p s))) ∧
    distance_to_edge ((3 : ℚ), (4 : ℚ)) (0, 0) (2, 0) =
      segment_distance_spec ((3 : ℚ), (4 : ℚ)) (0, 0) (2, 0) ∧
    distance_to_edge ((3 : ℚ), (4 : ℚ)) (5, 6) (5, 6) =
      sqnorm (vsub ((3 : ℚ), (4 : ℚ)) (5, 6)) := by
  have h := distance_to_edge_correct [((3 : ℚ), (4 : ℚ))] [(0, 0)] [(2, 0)] 0 0
    (by decide) (by decide) (by decide)
  refine ⟨by simpa using h, ?_, ?_⟩
  · exact h.2.1 (3, 4) (0, 0) (2, 0) (by norm_num [sqnorm, vsub])
  · exact h.2.2 (3, 4) (5, 6) (5, 6) (by norm_num [sqnorm, vsub])

/-- C4 counterexample: the point `(1/2, 0)` lies exactly on the segment from
`(0, 0)` to `(1/2, 0)` (it is the destination endpoint), yet
`distance_to_edge` returns `9/64`, not `0`: the clamp of the squared edge
length to a minimum of 1 distorts the projection for edges shorter than 1. -/
theorem distance_to_edge_on_segment_counterexample :
    OnSegment (1/2, 0) (0, 0) (1/2, 0) ∧
    distance_to_edge ((1 : ℚ)/2, (0 : ℚ)) (0, 0) (1/2, 0) = 9/64 ∧
    (9 : ℚ)/64 ≠ 0 := by
  refine ⟨⟨1, by norm_num, by norm_num, by norm_num⟩, ?_, by norm_num⟩
  norm_num [distance_to_edge, vsub, smul, dot, sqnorm, clip01]

/-- C4 amended: for every edge whose squared length is at least 1 or exactly
zero, and every point lying exactly on the segment between source and
destination, `distance_to_edge` returns 0. -/
theorem distance_to_edge_on_segment_amended (p s d : ℚ × ℚ)
    (hlen : 1 ≤ sqnorm (vsub d s) ∨ sqnorm (vsub d s) = 0)
    (hseg : OnSegment p s d) : distance_to_edge p s d = 0 := by
  rcases hseg with ⟨t, ht0, ht1, hp⟩
  rcases hlen with hq | hq
  · have hqne : sqnorm (vsub d s) ≠ 0 := (lt_of_lt_of_le one_pos hq).ne'
    subst hp
    unfold distance_to_edge
    rw [max_eq_left hq, vsub_self_shift]
    have hdot : dot (smul t (vsub d s)) (vsub d s) = t * sqnorm (vsub d s) := by
      simp only [dot, smul, sqnorm]
      ring
    rw [hdot, mul_div_assoc, div_self hqne, mul_one]
    have hclip : clip01 t = t := by
      unfold clip01
      rw [max_eq_left ht0, min_eq_left ht1]
    rw [hclip]
    simp [vsub, smul, sqnorm]
  · obtain ⟨h1, h2⟩ := (sqnorm_eq_zero_iff _).mp hq
    simp only [vsub] at h1 h2
    subst hp
    unfold distance_to_edge
    simp only [vsub, smul, dot, sqnorm, clip01, h1, h2]
    norm_num

/-- Witness for C4 amended: the midpoint of the unit-length-squared-4 edge
from `(0,0)` to `(2,0)` is at distance 0. -/
theorem distance_to_edge_on_segment_amended_witness :
    distance_to_edge ((1 : ℚ), (0 : ℚ)) (0, 0) (2, 0) = 0 :=
  distance_to_edge_on_segment_amended (1, 0) (0, 0) (2, 0)
    (Or.inl (by norm_num [sqnorm, vsub]))
    ⟨1/2, by norm_num, by norm_num, by norm_num⟩

theorem gaussian_pdf_zero (sigma : ℝ) : gaussian_pdf 0 sigma = 1 := by
  simp [gaussian_pdf]

theorem gaussian_pdf_pos (x : ℚ) (sigma : ℝ) : 0 < gaussian_pdf x sigma :=
  Real.exp_pos _

theorem gaussian_pdf_le_one (x : ℚ) (sigma : ℝ) (hσ : sigma ≠ 0) (hx : 0 ≤ x) :
    gaussian_pdf x sigma ≤ 1 := by
  unfold gaussian_pdf
  rw [Real.exp_le_one_iff, neg_div]
  have hx' : (0 : ℝ) ≤ (x : ℝ) := by exact_mod_cast hx
  have hden : (0 : ℝ) < 2 * sigma ^ 2 := by positivity
  have := div_nonneg hx' hden.le
  linarith

theorem gaussian_pdf_strict_anti (x₁ x₂ : ℚ) (sigma : ℝ) (hσ : sigma ≠ 0)
    (hlt : x₁ < x₂) : gaussian_pdf x₂ sigma < gaussian_pdf x₁ sigma := by
  unfold gaussian_pdf
  rw [Real.exp_lt_exp]
  have hden : (0 : ℝ) < 2 * sigma ^ 2 := by positivity
  have hlt' : (x₁ : ℝ) < (x₂ : ℝ) := by exact_mod_cast hlt
  rw [div_lt_div_iff₀ hden hden]
  nlinarith

/-- C6: each entry of `make_edge_maps` is the unnormalized Gaussian
`exp(-distance² / (2*sigma²))` of the corresponding squared point-to-edge
distance; for `sigma ≠ 0` the confidence is exactly 1 at distance 0, lies in
`(0, 1]` on every nonnegative squared distance, and strictly decreases as
the squared distance increases. -/
theorem make_edge_maps_correct (xv yv : List ℚ) (ss ds : List (ℚ × ℚ)) (σ : ℝ)
    (iy ix e : ℕ) (hσ : σ ≠ 0) (hiy : iy < yv.length) (hix : ix < xv.length)
    (he : e < ss.length) (he' : e < ds.length) :
    (((make_edge_maps xv yv ss ds σ).getD iy []).getD ix []).getD e 0 =
      gaussian_pdf
        (distance_to_edge (xv.getD ix 0, yv.getD iy 0) (ss.getD e (0, 0)) (ds.getD e (0, 0)))
        σ ∧
    gaussian_pdf 0 σ = 1 ∧
    (∀ x : ℚ, 0 ≤ x → 0 < gaussian_pdf x σ ∧ gaussian_pdf x σ ≤ 1) ∧
    (∀ x₁ x₂ : ℚ, x₁ < x₂ → gaussian_pdf x₂ σ < gaussian_pdf x₁ σ) := by
  refine ⟨?_, gaussian_pdf_zero σ,
    fun x hx => ⟨gaussian_pdf_pos x σ, gaussian_pdf_le_one x σ hσ hx⟩,
    fun x₁ x₂ h => gaussian_pdf_strict_anti x₁ x₂ σ hσ h⟩
  have houter : iy < (make_edge_maps xv yv ss ds σ).length := by
    simpa [make_edge_maps] using hiy
  rw [List.getD_eq_getElem _ _ houter]
  have hrow : (make_edge_maps xv yv ss ds σ)[iy] =
      xv.map fun x => List.zipWith
        (fun s d => gaussian_pdf (distance_to_edge (x, yv[iy]) s d) σ) ss ds := by
    simp [make_edge_maps]
  rw [hrow]
  have hmid : ix < (xv.map fun x => List.zipWith
      (fun s d => gaussian_pdf (distance_to_edge (x, yv[iy]) s d) σ) ss ds).length := by
    simpa using hix
  rw [List.getD_eq_getElem _ _ hmid]
  have hcell : (xv.map fun x => List.zipWith
      (fun s d => gaussian_pdf (distance_to_edge (x, yv[iy]) s d) σ) ss ds)[ix] =
      List.zipWith (fun s d => gaussian_pdf (distance_to_edge (xv[ix], yv[iy]) s d) σ) ss ds := by
    simp
  rw [hcell]
  have hinner : e < (List.zipWith
      (fun s d => gaussian_pdf (distance_to_edge (xv[ix], yv[iy]) s d) σ) ss ds).length := by
    simp [List.length_zipWith]
    omega
  rw [List.getD_eq_getElem _ _ hinner, List.getElem_zipWith,
    List.getD_eq_getElem _ _ hix, List.getD_eq_getElem _ _ hiy,
    List.getD_eq_getElem _ _ he, List.getD_eq_getElem _ _ he']

/-- Witness for C6 at a concrete grid, edge and sigma. -/
theorem make_edge_maps_correct_witness :
    (((make_edge_maps [0, 1] [0] [(0, 0)] [(2, 0)] 1).getD 0 []).getD 1 []).getD 0 0 =
      gaussian_pdf (distance_to_edge ((1 : ℚ), (0 : ℚ)) (0, 0) (2, 0)) 1 ∧
    gaussian_pdf 0 1 = 1 ∧
    (∀ x : ℚ, 0 ≤ x → 0 < gaussian_pdf x 1 ∧ gaussian_pdf x 1 ≤ 1) ∧
    (∀ x₁ x₂ : ℚ, x₁ < x₂ → gaussian_pdf x₂ 1 < gaussian_pdf x₁ 1) := by
  have h := make_edge_maps_correct [0, 1] [0] [(0, 0)] [(2, 0)] 1 0 1 0
    (by norm_num) (by decide) (by decide) (by decide) (by decide)
  simpa using h

theorem unit_vector_sq_norm (s d : ℚ × ℚ) (h : sqnorm (vsub d s) ≠ 0) :
    ∃ u : ℝ × ℝ, unit_vector s d = some u ∧ u.1 ^ 2 + u.2 ^ 2 = 1 := by
  refine ⟨_, if_neg h, ?_⟩
  have hq0 : (0 : ℚ) ≤ sqnorm (vsub d s) := sqnorm_nonneg _
  have hqR : (0 : ℝ) < ((sqnorm (vsub d s) : ℚ) : ℝ) := by
    exact_mod_cast lt_of_le_of_ne hq0 (Ne.symm h)
  have hsq : Real.sqrt ((sqnorm (vsub d s) : ℚ) : ℝ) ^ 2 = ((sqnorm (vsub d s) : ℚ) : ℝ) :=
    Real.sq_sqrt hqR.le
  have hsum : (((vsub d s).1 : ℝ)) ^ 2 + (((vsub d s).2 : ℝ)) ^ 2 =
      ((sqnorm (vsub d s) : ℚ) : ℝ) := by
    push_cast [sqnorm]
    ring
  simp only [div_pow, hsq]
  rw [div_add_div_same, hsum, div_self hqR.ne']

/-- C7: each entry of `make_pafs` is `make_pafs_val` at the corresponding
grid point and edge; for an edge with distinct endpoints the value is the
cell's confidence times a norm-1 unit vector, and for a zero-length edge the
value is NaN (`none`) at every grid cell. -/
theorem make_pafs_correct (xv yv : List ℚ) (ss ds : List (ℚ × ℚ)) (σ : ℝ)
    (iy ix e : ℕ) (hiy : iy < yv.length) (hix : ix < xv.length)
    (he : e < ss.length) (he' : e < ds.length) :
    (((make_pafs xv yv ss ds σ).getD iy []).getD ix []).getD e none =
      make_pafs_val (xv.getD ix 0) (yv.getD iy 0) (ss.getD e (0, 0)) (ds.getD e (0, 0)) σ ∧
    (∀ (x y : ℚ) (s d : ℚ × ℚ), sqnorm (vsub d s) ≠ 0 →
      ∃ u : ℝ × ℝ, u.1 ^ 2 + u.2 ^ 2 = 1 ∧
        make_pafs_val x y s d σ =
          some (gaussian_pdf (distance_to_edge (x, y) s d) σ * u.1,
            gaussian_pdf (distance_to_edge (x, y) s d) σ * u.2)) ∧
    (∀ (x y : ℚ) (s d : ℚ × ℚ), sqnorm (vsub d s) = 0 →
      make_pafs_val x y s d σ = none) := by
  refine ⟨?_, ?_, ?_⟩
  · have houter : iy < (make_pafs xv yv ss ds σ).length := by
      simpa [make_pafs] using hiy
    rw [List.getD_eq_getElem _ _ houter]
    have hrow : (make_pafs xv yv ss ds σ)[iy] =
        xv.map fun x => List.zipWith (fun s d => make_pafs_val x yv[iy] s d σ) ss ds := by
      simp [make_pafs]
    rw [hrow]
    have hmid : ix < (xv.map fun x =>
        List.zipWith (fun s d => make_pafs_val x yv[iy] s d σ) ss ds).length := by
      simpa using hix
    rw [List.getD_eq_getElem _ _ hmid]
    have hcell : (xv.map fun x =>
        List.zipWith (fun s d => make_pafs_val x yv[iy] s d σ) ss ds)[ix] =
        List.zipWith (fun s d => make_pafs_val xv[ix] yv[iy] s d σ) ss ds := by
      simp
    rw [hcell]
    have hinner : e < (List.zipWith
        (fun s d => make_pafs_val xv[ix] yv[iy] s d σ) ss ds).length := by
      simp [List.length_zipWith]
      omega
    rw [List.getD_eq_getElem _ _ hinner, List.getElem_zipWith,
      List.getD_eq_getElem _ _ hix, List.getD_eq_getElem _ _ hiy,
      List.getD_eq_getElem _ _ he, List.getD_eq_getElem _ _ he']
  · intro x y s d h
    obtain ⟨u, hu, hnorm⟩ := unit_vector_sq_norm s d h
    exact ⟨u, hnorm, by simp [make_pafs_val, hu]⟩
  · intro x y s d h
    simp [make_pafs_val, unit_vector, h]

/-- Witness for C7 at a concrete grid with one proper and one degenerate
edge. -/
theorem make_pafs_correct_witness :
    (((make_pafs [0, 1] [0] [(0, 0)] [(2, 0)] 1).getD 0 []).getD 1 []).getD 0 none =
      make_pafs_val 1 0 ((0 : ℚ), (0 : ℚ)) (2, 0) 1 ∧
    (∃ u : ℝ × ℝ, u.1 ^ 2 + u.2 ^ 2 = 1 ∧
      make_pafs_val 1 0 ((0 : ℚ), (0 : ℚ)) (2, 0) 1 =
        some (gaussian_pdf (distance_to_edge (1, 0) (0, 0) (2, 0)) 1 * u.1,
          gaussian_pdf (distance_to_edge (1, 0) (0, 0) (2, 0)) 1 * u.2)) ∧
    make_pafs_val 1 0 ((5 : ℚ), (6 : ℚ)) (5, 6) 1 = none := by
  have h := make_pafs_correct [0, 1] [0] [(0, 0)] [(2, 0)] 1 0 1 0
    (by decide) (by decide) (by decide) (by decide)
  refine ⟨by simpa using h.1, ?_, ?_⟩
  · simpa using h.2.1 1 0 (0, 0) (2, 0) (by norm_num [sqnorm, vsub])
  · exact h.2.2 1 0 (5, 6) (5, 6) (by norm_num [sqnorm, vsub])

theorem tshape_zeros (H W E : ℕ) : TShape (zeros_t H W E) H W E := by
  refine ⟨by simp [zeros_t], ?_⟩
  intro i hi
  constructor
  · simp [zeros_t]
  · intro j hj
    simp [zeros_t]

theorem tshape_nan_make_pafs (xv yv : List ℚ) (ss ds : List (ℚ × ℚ)) (σ : ℝ)
    (E : ℕ) (hs : ss.length = E) (hd : ds.length = E) :
    TShape (nan_to_zero_t (make_pafs xv yv ss ds σ)) yv.length xv.length E := by
  refine ⟨by simp [nan_to_zero_t, make_pafs], ?_⟩
  intro i hi
  constructor
  · simp [nan_to_zero_t, make_pafs]
  · intro j hj
    simp [nan_to_zero_t, make_pafs, List.length_zipWith, hs, hd]

theorem tshape_tensor_add (a b : List (List (List (ℝ × ℝ)))) (H W E : ℕ)
    (ha : TShape a H W E) (hb : TShape b H W E) :
    TShape (tensor_add a b) H W E := by
  obtain ⟨haL, haI⟩ := ha
  obtain ⟨hbL, hbI⟩ := hb
  have hlen : (tensor_add a b).length = H := by
    simp [tensor_add, List.length_zipWith, haL, hbL]
  refine ⟨hlen, ?_⟩
  intro i hi
  have hia : i < a.length := by omega
  have hib : i < b.length := by omega
  have hrow : (tensor_add a b)[i] =
      List.zipWith (List.zipWith (· + ·)) (a[i]) (b[i]) := by
    simp only [tensor_add]
    rw [List.getElem_zipWith]
  obtain ⟨haW, haE⟩ := haI i hia
  obtain ⟨hbW, hbE⟩ := hbI i hib
  rw [hrow]
  constructor
  · simp [List.length_zipWith, haW, hbW]
  · intro j hj
    simp only [List.length_zipWith] at hj
    have hja : j < (a[i]).length := by omega
    have hjb : j < (b[i]).length := by omega
    have hcell : (List.zipWith (List.zipWith (· + ·)) (a[i]) (b[i]))[j] =
        List.zipWith (· + ·) ((a[i])[j]) ((b[i])[j]) := by
      rw [List.getElem_zipWith]
    rw [hcell]
    simp [List.length_zipWith, haE j hja, hbE j hjb]

theorem paf_entry_getElem (t : List (List (List (ℝ × ℝ)))) (iy ix e : ℕ) :
    ∀ (h1 : iy < t.length) (h2 : ix < (t[iy]).length) (h3 : e < ((t[iy])[ix]).length),
      paf_entry t iy ix e = ((t[iy])[ix])[e] := by
  intro h1 h2 h3
  unfold paf_entry
  have s1 : t.getD iy [] = t[iy] := List.getD_eq_getElem _ _ h1
  rw [s1]
  have s2 : (t[iy]).getD ix [] = (t[iy])[ix] := List.getD_eq_getElem _ _ h2
  rw [s2]
  exact List.getD_eq_getElem _ _ h3

theorem paf_entry_tensor_add (a b : List (List (List (ℝ × ℝ)))) (H W E : ℕ)
    (ha : TShape a H W E) (hb : TShape b H W E) (iy ix e : ℕ)
    (hiy : iy < H) (hix : ix < W) (he : e < E) :
    paf_entry (tensor_add a b) iy ix e = paf_entry a iy ix e + paf_entry b iy ix e := by
  obtain ⟨haL, haI⟩ := ha
  obtain ⟨hbL, hbI⟩ := hb
  have hia : iy < a.length := by omega
  have hib : iy < b.length := by omega
  obtain ⟨haW, haE⟩ := haI iy hia
  obtain ⟨hbW, hbE⟩ := hbI iy hib
  have hja : ix < (a[iy]).length := by omega
  have hjb : ix < (b[iy]).length := by omega
  have hea : e < ((a[iy])[ix]).length := by rw [haE ix hja]; exact he
  have heb : e < ((b[iy])[ix]).length := by rw [hbE ix hjb]; exact he
  have hsum := tshape_tensor_add a b H W E ⟨haL, haI⟩ ⟨hbL, hbI⟩
  obtain ⟨hsL, hsI⟩ := hsum
  have hi : iy < (tensor_add a b).length := by omega
  obtain ⟨hsW, hsE⟩ := hsI iy hi
  have hj : ix < ((tensor_add a b)[iy]).length := by omega
  have hee : e < (((tensor_add a b)[iy])[ix]).length := by rw [hsE ix hj]; exact he
  rw [paf_entry_getElem (tensor_add a b) iy ix e hi hj hee,
    paf_entry_getElem a iy ix e hia hja hea,
    paf_entry_getElem b iy ix e hib hjb heb]
  simp only [tensor_add, List.getElem_zipWith]

theorem paf_entry_zeros (H W E iy ix e : ℕ) :
    paf_entry (zeros_t H W E) iy ix e = (0, 0) := by
  unfold paf_entry zeros_t
  rcases Nat.lt_or_ge iy H with h1 | h1
  · have s1 : (List.replicate H
        (List.replicate W (List.replicate E ((0 : ℝ), (0 : ℝ))))).getD iy [] =
        List.replicate W (List.replicate E (0, 0)) := by
      rw [List.getD_eq_getElem _ _ (by simpa using h1)]
      simp
    rw [s1]
    rcases Nat.lt_or_ge ix W with h2 | h2
    · have s2 : (List.replicate W (List.replicate E ((0 : ℝ), (0 : ℝ)))).getD ix [] =
          List.replicate E (0, 0) := by
        rw [List.getD_eq_getElem _ _ (by simpa using h2)]
        simp
      rw [s2]
      rcases Nat.lt_or_ge e E with h3 | h3
      · rw [List.getD_eq_getElem _ _ (by simpa using h3)]
        simp
      · exact List.getD_eq_default _ _ (by simpa using h3)
    · have s2 : (List.replicate W (List.replicate E ((0 : ℝ), (0 : ℝ)))).getD ix [] =
          ([] : List (ℝ × ℝ)) := List.getD_eq_default _ _ (by simpa using h2)
      rw [s2]
      simp
  · have s1 : (List.replicate H
        (List.replicate W (List.replicate E ((0 : ℝ), (0 : ℝ))))).getD iy [] =
        ([] : List (List (ℝ × ℝ))) := List.getD_eq_default _ _ (by simpa using h1)
    rw [s1]
    simp

theorem paf_entry_nan_make_pafs (xv yv : List ℚ) (ss ds : List (ℚ × ℚ)) (σ : ℝ)
    (E : ℕ) (hs : ss.length = E) (hd : ds.length = E) (iy ix e : ℕ)
    (hiy : iy < yv.length) (hix : ix < xv.length) (he : e < E) :
    paf_entry (nan_to_zero_t (make_pafs xv yv ss ds σ)) iy ix e =
      nan_to_zero (make_pafs_val (xv.getD ix 0) (yv.getD iy 0)
        (ss.getD e (0, 0)) (ds.getD e (0, 0)) σ) := by
  have hss : e < ss.length := by omega
  have hds : e < ds.length := by omega
  obtain ⟨hL, hI⟩ := tshape_nan_make_pafs xv yv ss ds σ E hs hd
  have h1 : iy < (nan_to_zero_t (make_pafs xv yv ss ds σ)).length := by omega
  obtain ⟨hW, hE⟩ := hI iy h1
  have h2 : ix < ((nan_to_zero_t (make_pafs xv yv ss ds σ))[iy]).length := by omega
  have h3 : e < (((nan_to_zero_t (make_pafs xv yv ss ds σ))[iy])[ix]).length := by
    rw [hE ix h2]
    exact he
  rw [paf_entry_getElem _ iy ix e h1 h2 h3]
  have sx : xv.getD ix 0 = xv[ix] := List.getD_eq_getElem _ _ hix
  have sy : yv.getD iy 0 = yv[iy] := List.getD_eq_getElem _ _ hiy
  have sse : ss.getD e (0, 0) = ss[e] := List.getD_eq_getElem _ _ hss
  have sde : ds.getD e (0, 0) = ds[e] := List.getD_eq_getElem _ _ hds
  rw [sx, sy, sse, sde]
  simp [nan_to_zero_t, make_pafs, List.getElem_zipWith]

theorem make_multi_foldl (xv yv : List ℚ) (E : ℕ) (σ : ℝ) :
    ∀ (insts : List (List (ℚ × ℚ) × List (ℚ × ℚ))) (acc : List (List (List (ℝ × ℝ)))),
      (∀ sd ∈ insts, sd.1.length = E ∧ sd.2.length = E) →
      TShape acc yv.length xv.length E →
      TShape (insts.foldl (fun acc sd =>
          tensor_add acc (nan_to_zero_t (make_pafs xv yv sd.1 sd.2 σ))) acc)
        yv.length xv.length E ∧
      ∀ iy ix e, iy < yv.length → ix < xv.length → e < E →
        paf_entry (insts.foldl (fun acc sd =>
            tensor_add acc (nan_to_zero_t (make_pafs xv yv sd.1 sd.2 σ))) acc) iy ix e =
          paf_entry acc iy ix e +
            (insts.map (fun sd => nan_to_zero (make_pafs_val (xv.getD ix 0) (yv.getD iy 0)
              (sd.1.getD e (0, 0)) (sd.2.getD e (0, 0)) σ))).sum := by
  intro insts
  induction insts with
  | nil =>
    intro acc _ hacc
    exact ⟨hacc, by simp⟩
  | cons sd rest ih =>
    intro acc hlen hacc
    have hsd := hlen sd (by simp)
    have hpafShape := tshape_nan_make_pafs xv yv sd.1 sd.2 σ E hsd.1 hsd.2
    have hstep : TShape (tensor_add acc (nan_to_zero_t (make_pafs xv yv sd.1 sd.2 σ)))
        yv.length xv.length E :=
      tshape_tensor_add _ _ _ _ _ hacc hpafShape
    have hrest := ih (tensor_add acc (nan_to_zero_t (make_pafs xv yv sd.1 sd.2 σ)))
      (fun x hx => hlen x (by simp [hx])) hstep
    refine ⟨by simpa using hrest.1, ?_⟩
    intro iy ix e hiy hix he
    simp only [List.foldl_cons]
    rw [hrest.2 iy ix e hiy hix he,
      paf_entry_tensor_add acc _ _ _ _ hacc hpafShape iy ix e hiy hix he,
      paf_entry_nan_make_pafs xv yv sd.1 sd.2 σ E hsd.1 hsd.2 iy ix e hiy hix he]
    simp [add_assoc]

/-- C2: each cell of `make_multi_pafs` is the sum, over instances, of that
instance's single-instance PAF with NaN replaced by 0 before the addition:
a NaN contribution is exactly `(0, 0)`, overlapping non-NaN contributions
are added, and a cell where every instance is NaN is exactly `(0, 0)` (the
output lives in plain pairs of reals, never NaN). -/
theorem make_multi_pafs_correct (xv yv : List ℚ) (E : ℕ)
    (ss ds : List (List (ℚ × ℚ))) (σ : ℝ)
    (hinst : ∀ sd ∈ List.zip ss ds, sd.1.length = E ∧ sd.2.length = E)
    (iy ix e : ℕ) (hiy : iy < yv.length) (hix : ix < xv.length) (he : e < E) :
    paf_entry (make_multi_pafs xv yv E ss ds σ) iy ix e =
      ((List.zip ss ds).map (fun sd => nan_to_zero (make_pafs_val (xv.getD ix 0) (yv.getD iy 0)
        (sd.1.getD e (0, 0)) (sd.2.getD e (0, 0)) σ))).sum ∧
    nan_to_zero none = (0, 0) ∧
    ((∀ sd ∈ List.zip ss ds, make_pafs_val (xv.getD ix 0) (yv.getD iy 0)
        (sd.1.getD e (0, 0)) (sd.2.getD e (0, 0)) σ = none) →
      paf_entry (make_multi_pafs xv yv E ss ds σ) iy ix e = (0, 0)) := by
  have hfold := make_multi_foldl xv yv E σ (List.zip ss ds)
    (zeros_t yv.length xv.length E) hinst (tshape_zeros _ _ _)
  have hmain : paf_entry (make_multi_pafs xv yv E ss ds σ) iy ix e =
      ((List.zip ss ds).map (fun sd => nan_to_zero (make_pafs_val (xv.getD ix 0) (yv.getD iy 0)
        (sd.1.getD e (0, 0)) (sd.2.getD e (0, 0)) σ))).sum := by
    unfold make_multi_pafs
    rw [hfold.2 iy ix e hiy hix he, paf_entry_zeros,
      show ((0, 0) : ℝ × ℝ) = 0 from rfl, zero_add]
  refine ⟨hmain, rfl, ?_⟩
  intro hall
  rw [hmain]
  apply List.sum_eq_zero
  intro x hx
  obtain ⟨sd, hsd, hxeq⟩ := List.mem_map.mp hx
  rw [← hxeq, hall sd hsd]
  rfl

/-- Witness for C2: one proper and one degenerate instance on a one-cell
grid. -/
theorem make_multi_pafs_correct_witness :
    paf_entry (make_multi_pafs [0] [0] 1 [[(0, 0)], [(5, 6)]] [[(2, 0)], [(5, 6)]] 1) 0 0 0 =
      ((List.zip [[((0 : ℚ), (0 : ℚ))], [(5, 6)]] [[((2 : ℚ), (0 : ℚ))], [(5, 6)]]).map
        (fun sd => nan_to_zero (make_pafs_val 0 0
          (sd.1.getD 0 (0, 0)) (sd.2.getD 0 (0, 0)) 1))).sum ∧
    nan_to_zero none = (0, 0) ∧
    ((∀ sd ∈ List.zip [[((0 : ℚ), (0 : ℚ))], [(5, 6)]] [[((2 : ℚ), (0 : ℚ))], [(5, 6)]],
        make_pafs_val 0 0 (sd.1.getD 0 (0, 0)) (sd.2.getD 0 (0, 0)) 1 = none) →
      paf_entry (make_multi_pafs [0] [0] 1 [[(0, 0)], [(5, 6)]] [[(2, 0)], [(5, 6)]] 1) 0 0 0 =
        (0, 0)) := by
  have h := make_multi_pafs_correct [0] [0] 1 [[(0, 0)], [(5, 6)]] [[(2, 0)], [(5, 6)]] 1
    (by decide) 0 0 0 (by decide) (by decide) (by decide)
  simpa using h

theorem zipWith_right_comm {α : Type} (f : α → α → α)
    (hf : ∀ x y z, f (f x y) z = f (f x z) y) :
    ∀ a b c : List α, List.zipWith f (List.zipWith f a b) c = List.zipWith f (List.zipWith f a c) b := by
  intro a
  induction a with
  | nil => intro b c; simp
  | cons x xs ih =>
    intro b c
    cases b with
    | nil => simp
    | cons y ys =>
      cases c with
      | nil => simp
      | cons z zs => simp [hf, ih]

theorem tensor_add_right_comm (a b c : List (List (List (ℝ × ℝ)))) :
    tensor_add (tensor_add a b) c = tensor_add (tensor_add a c) b := by
  unfold tensor_add
  refine zipWith_right_comm _ ?_ a b c
  intro x y z
  refine zipWith_right_comm _ ?_ x y z
  intro u v w
  refine zipWith_right_comm _ ?_ u v w
  intro p q r
  exact add_right_comm p q r

/-- C8: permuting the instances (source/destination pairs jointly) leaves
`make_multi_pafs` unchanged: in this exact-arithmetic model the aggregation
is fully order-independent, not merely up to floating-point reassociation. -/
theorem make_multi_pafs_perm (xv yv : List ℚ) (E : ℕ)
    (ss₁ ds₁ ss₂ ds₂ : List (List (ℚ × ℚ))) (σ : ℝ)
    (hperm : (List.zip ss₁ ds₁).Perm (List.zip ss₂ ds₂)) :
    make_multi_pafs xv yv E ss₁ ds₁ σ = make_multi_pafs xv yv E ss₂ ds₂ σ := by
  unfold make_multi_pafs
  exact hperm.foldl_eq'
    (fun x _ y _ z => tensor_add_right_comm z
      (nan_to_zero_t (make_pafs xv yv x.1 x.2 σ)) (nan_to_zero_t (make_pafs xv yv y.1 y.2 σ))) _

/-- Witness for C8: swapping two concrete instances. -/
theorem make_multi_pafs_perm_witness :
    make_multi_pafs [0] [0] 1 [[((0 : ℚ), (0 : ℚ))], [(1, 1)]] [[((2 : ℚ), (0 : ℚ))], [(1, 3)]] 1 =
      make_multi_pafs [0] [0] 1 [[((1 : ℚ), (1 : ℚ))], [(0, 0)]] [[((1 : ℚ), (3 : ℚ))], [(2, 0)]] 1 :=
  make_multi_pafs_perm [0] [0] 1 _ _ _ _ 1 (by decide)

/-- C9: a record whose instance set is empty after in-frame filtering
yields exactly the all-zero PAF tensor of shape
`[grid_height, grid_width, n_edges, 2]` — with zero instances
`make_multi_pafs` returns its zero initializer, every cell is `(0, 0)`, and
no error is raised (the transform is total). -/
theorem empty_record_zero_paf (σ : ℝ) (xv yv : List ℚ)
    (edge_inds : List (ℕ × ℕ)) (ex : Example)
    (hfilter : filtered_instances xv yv ex = []) :
    (generate_pafs σ xv yv edge_inds false ex).part_affinity_fields =
      PAFField.unflat (zeros_t yv.length xv.length edge_inds.length) ∧
    make_multi_pafs xv yv edge_inds.length [] [] σ =
      zeros_t yv.length xv.length edge_inds.length ∧
    TShape (zeros_t yv.length xv.length edge_inds.length)
      yv.length xv.length edge_inds.length ∧
    ∀ iy ix e : ℕ,
      paf_entry (zeros_t yv.length xv.length edge_inds.length) iy ix e = (0, 0) := by
  refine ⟨?_, rfl, tshape_zeros _ _ _, fun iy ix e => paf_entry_zeros _ _ _ _ _ _⟩
  unfold generate_pafs record_pafs
  rw [hfilter]
  rfl

/-- Witness for C9: a record whose only instance lies outside the grid. -/
theorem empty_record_zero_paf_witness :
    (generate_pafs 1 [1/2, 3/2] [1/2, 3/2] [(0, 1)] false
        ⟨2, 2, [[(-5, -5), (-6, -6)]], []⟩).part_affinity_fields =
      PAFField.unflat (zeros_t 2 2 1) ∧
    make_multi_pafs [1/2, 3/2] [1/2, 3/2] 1 [] [] 1 = zeros_t 2 2 1 ∧
    TShape (zeros_t 2 2 1) 2 2 1 ∧
    ∀ iy ix e : ℕ, paf_entry (zeros_t 2 2 1) iy ix e = (0, 0) := by
  have h := empty_record_zero_paf 1 [1/2, 3/2] [1/2, 3/2] [(0, 1)]
    ⟨2, 2, [[(-5, -5), (-6, -6)]], []⟩ (by decide)
  simpa using h

theorem record_pafs_shape (σ : ℝ) (xv yv : List ℚ) (edge_inds : List (ℕ × ℕ))
    (ex : Example) :
    TShape (record_pafs σ xv yv edge_inds ex) yv.length xv.length edge_inds.length := by
  unfold record_pafs make_multi_pafs
  refine (make_multi_foldl xv yv edge_inds.length σ _ _ ?_ (tshape_zeros _ _ _)).1
  rintro ⟨s, d⟩ hsd
  obtain ⟨hs, hd⟩ := List.of_mem_zip hsd
  simp only [get_edge_points, List.mem_map] at hs hd
  obtain ⟨inst, _, hseq⟩ := hs
  obtain ⟨inst2, _, hdeq⟩ := hd
  constructor
  · rw [← hseq]
    simp
  · rw [← hdeq]
    simp

theorem length_flatMap_pair (c : List (ℝ × ℝ)) :
    (c.flatMap fun v => [v.1, v.2]).length = c.length * 2 := by
  induction c with
  | nil => rfl
  | cons v vs ih =>
    simp only [List.flatMap_cons, List.length_append, List.length_cons, ih]
    simp
    omega

theorem flatten_last_axes_shape (t : List (List (List (ℝ × ℝ)))) (H W E : ℕ)
    (ht : TShape t H W E) : TShapeFlat (flatten_last_axes t) H W (E * 2) := by
  obtain ⟨hL, hI⟩ := ht
  refine ⟨by simpa [flatten_last_axes] using hL, ?_⟩
  intro i hi
  have hi' : i < t.length := by simpa [flatten_last_axes] using hi
  obtain ⟨hW, hE⟩ := hI i hi'
  constructor
  · simp only [flatten_last_axes, List.getElem_map, List.length_map]
    exact hW
  · intro j hj
    simp only [flatten_last_axes, List.getElem_map, List.length_map] at hj ⊢
    rw [length_flatMap_pair, hE j hj]

/-- C5: on a nonempty stream, `transform_dataset` succeeds and outputs one
record per input record, in the same order; each output record carries every
input field unchanged (in particular the first record, peeked for the image
size, is still present) plus the new `part_affinity_fields` field of shape
`[grid_height, grid_width, n_edges, 2]`, or
`[grid_height, grid_width, n_edges*2]` when `flatten_channels` is set. -/
theorem transform_dataset_correct (g : PartAffinityFieldsGenerator)
    (input : List Example) (first : Example) (rest : List Example)
    (hin : input = first :: rest) :
    ∃ out, transform_dataset g input = some out ∧
      out.length = input.length ∧
      (∀ (i : ℕ) (hi : i < out.length) (hi' : i < input.length),
        (out[i]).toExample = input[i]) ∧
      (∀ (i : ℕ) (hi : i < out.length),
        if g.flatten_channels then
          ∃ t, (out[i]).part_affinity_fields = PAFField.flat t ∧
            TShapeFlat t
              (make_grid_vectors first.image_height first.image_width g.output_stride).2.length
              (make_grid_vectors first.image_height first.image_width g.output_stride).1.length
              ((g.skeletons.getD 0 ⟨[]⟩).edge_inds.length * 2)
        else
          ∃ t, (out[i]).part_affinity_fields = PAFField.unflat t ∧
            TShape t
              (make_grid_vectors first.image_height first.image_width g.output_stride).2.length
              (make_grid_vectors first.image_height first.image_width g.output_stride).1.length
              ((g.skeletons.getD 0 ⟨[]⟩).edge_inds.length)) := by
  subst hin
  refine ⟨_, rfl, by simp, ?_, ?_⟩
  · intro i hi hi'
    simp only [List.getElem_map]
    rfl
  · intro i hi
    simp only [List.getElem_map]
    split_ifs with hfc
    · simp only [generate_pafs, hfc, if_true]
      exact ⟨_, rfl, flatten_last_axes_shape _ _ _ _ (record_pafs_shape _ _ _ _ _)⟩
    · simp only [generate_pafs, Bool.not_eq_true] at hfc ⊢
      simp only [hfc, Bool.false_eq_true, if_false]
      exact ⟨_, rfl, record_pafs_shape _ _ _ _ _⟩

/-- Witness for C5 on a one-record stream. -/
theorem transform_dataset_correct_witness :
    ∃ out,
      transform_dataset ⟨1, 1, [⟨[(0, 1)]⟩], false⟩ [⟨2, 2, [[(1, 1), (1, 1)]], []⟩] = some out ∧
      out.length = [(⟨2, 2, [[(1, 1), (1, 1)]], []⟩ : Example)].length ∧
      (∀ (i : ℕ) (hi : i < out.length)
          (hi' : i < [(⟨2, 2, [[(1, 1), (1, 1)]], []⟩ : Example)].length),
        (out[i]).toExample = [(⟨2, 2, [[(1, 1), (1, 1)]], []⟩ : Example)][i]) ∧
      (∀ (i : ℕ) (hi : i < out.length),
        if (false : Bool) then
          ∃ t, (out[i]).part_affinity_fields = PAFField.flat t ∧
            TShapeFlat t (make_grid_vectors 2 2 1).2.length
              (make_grid_vectors 2 2 1).1.length
              ((([⟨[(0, 1)]⟩] : List Skeleton).getD 0 ⟨[]⟩).edge_inds.length * 2)
        else
          ∃ t, (out[i]).part_affinity_fields = PAFField.unflat t ∧
            TShape t (make_grid_vectors 2 2 1).2.length
              (make_grid_vectors 2 2 1).1.length
              ((([⟨[(0, 1)]⟩] : List Skeleton).getD 0 ⟨[]⟩).edge_inds.length)) := by
  have h := transform_dataset_correct ⟨1, 1, [⟨[(0, 1)]⟩], false⟩
    [⟨2, 2, [[(1, 1), (1, 1)]], []⟩] ⟨2, 2, [[(1, 1), (1, 1)]], []⟩ [] rfl
  simpa using h

/-- C3 counterexample: with last grid coordinates `xv[-1] = yv[-1] = 2`, the
single-keypoint instance at `(0, 1)` satisfies the claim's in-image test
(`0 ≤ x < xv_max` and `0 ≤ y < yv_max`), yet the code's filter drops it: the
source tests `instances > 0`, which is strict at the lower bound. -/
theorem instance_filter_counterexample :
    List.filter (in_img_instance 2 2) [[((0 : ℚ), (1 : ℚ))]] = [] ∧
    (∃ p ∈ [((0 : ℚ), (1 : ℚ))], 0 ≤ p.1 ∧ p.1 < 2 ∧ 0 ≤ p.2 ∧ p.2 < 2) := by
  constructor
  · decide
  · exact ⟨(0, 1), by simp, by norm_num⟩

/-- C3 amended: an instance is kept iff some keypoint `(x, y)` satisfies
`0 < x < xv[-1]` and `0 < y < yv[-1]` (strict at both ends); an instance with
no such keypoint is dropped and the output PAF is unaffected by its presence
in the record. -/
theorem instance_filter_amended (σ : ℝ) (xv yv : List ℚ)
    (edge_inds : List (ℕ × ℕ)) (fc : Bool) (h w : ℕ) (sk : List ℤ)
    (l₁ l₂ : List (List (ℚ × ℚ))) (inst : List (ℚ × ℚ))
    (hout : in_img_instance (xv.getD (xv.length - 1) 0)
      (yv.getD (yv.length - 1) 0) inst = false) :
    (∀ (xlast ylast : ℚ) (inst2 : List (ℚ × ℚ)),
      in_img_instance xlast ylast inst2 = true ↔
        ∃ p ∈ inst2, 0 < p.1 ∧ p.1 < xlast ∧ 0 < p.2 ∧ p.2 < ylast) ∧
    (generate_pafs σ xv yv edge_inds fc ⟨h, w, l₁ ++ inst :: l₂, sk⟩).part_affinity_fields =
      (generate_pafs σ xv yv edge_inds fc ⟨h, w, l₁ ++ l₂, sk⟩).part_affinity_fields := by
  constructor
  · intro xlast ylast inst2
    simp [in_img_instance, in_img_point, List.any_eq_true, and_assoc]
  · unfold generate_pafs record_pafs filtered_instances
    have hout2 := hout
    simp only [List.getD_eq_getElem?_getD] at hout2
    simp [List.filter_append, List.filter_cons, hout2]

/-- Witness for C3 amended: an all-out-of-frame instance inserted between
two in-frame instances does not change the PAF. -/
theorem instance_filter_amended_witness :
    (∀ (xlast ylast : ℚ) (inst2 : List (ℚ × ℚ)),
      in_img_instance xlast ylast inst2 = true ↔
        ∃ p ∈ inst2, 0 < p.1 ∧ p.1 < xlast ∧ 0 < p.2 ∧ p.2 < ylast) ∧
    (generate_pafs 1 [1/2, 3/2] [1/2, 3/2] [(0, 1)] false
        ⟨2, 2, [[(1, 1), (1, 1)]] ++ [(-3, -3), (0, 1)] :: [[(1, 1), (3/4, 1)]], []⟩).part_affinity_fields =
      (generate_pafs 1 [1/2, 3/2] [1/2, 3/2] [(0, 1)] false
        ⟨2, 2, [[(1, 1), (1, 1)]] ++ [[(1, 1), (3/4, 1)]], []⟩).part_affinity_fields := by
  have h := instance_filter_amended 1 [1/2, 3/2] [1/2, 3/2] [(0, 1)] false 2 2 []
    [[(1, 1), (1, 1)]] [[(1, 1), (3/4, 1)]] [(-3, -3), (0, 1)] (by decide)
  simpa using h

theorem generate_pafs_paf_eq (σ : ℝ) (xv yv : List ℚ) (edge_inds : List (ℕ × ℕ))
    (fc : Bool) (e₁ e₂ : Example) (h : e₁.instances = e₂.instances) :
    (generate_pafs σ xv yv edge_inds fc e₁).part_affinity_fields =
      (generate_pafs σ xv yv edge_inds fc e₂).part_affinity_fields := by
  unfold generate_pafs record_pafs filtered_instances
  rw [h]

/-- C10: records that agree on everything but `skeleton_inds` produce
identical `part_affinity_fields` streams, and replacing the configured
skeleton list by its first element alone leaves the whole output unchanged:
only `skeletons[0]` supplies the edge indices and the per-record
`skeleton_inds` value never influences the output. -/
theorem skeleton_inds_irrelevant (g : PartAffinityFieldsGenerator)
    (input₁ input₂ : List Example) (hlen : input₁.length = input₂.length)
    (hsame : ∀ (i : ℕ) (h1 : i < input₁.length) (h2 : i < input₂.length),
      (input₁[i]).image_height = (input₂[i]).image_height ∧
      (input₁[i]).image_width = (input₂[i]).image_width ∧
      (input₁[i]).instances = (input₂[i]).instances) :
    Option.map (List.map PAFExample.part_affinity_fields) (transform_dataset g input₁) =
      Option.map (List.map PAFExample.part_affinity_fields) (transform_dataset g input₂) ∧
    transform_dataset g input₁ =
      transform_dataset
        ⟨g.sigma, g.output_stride, [g.skeletons.getD 0 ⟨[]⟩], g.flatten_channels⟩
        input₁ := by
  constructor
  · cases input₁ with
    | nil =>
      cases input₂ with
      | nil => rfl
      | cons b bs => simp at hlen
    | cons a as =>
      cases input₂ with
      | nil => simp at hlen
      | cons b bs =>
        obtain ⟨hh, hw, _⟩ := hsame 0 (by simp) (by simp)
        simp only [List.getElem_cons_zero] at hh hw
        simp only [transform_dataset, Option.map_some', List.map_map]
        rw [hh, hw]
        simp only [Option.some.injEq]
        apply List.ext_getElem
        · simpa using hlen
        · intro i h1 h2
          simp only [List.length_map] at h1 h2
          simp only [List.getElem_map, Function.comp_apply]
          exact generate_pafs_paf_eq _ _ _ _ _ _ _ (hsame i h1 h2).2.2
  · cases input₁ with
    | nil => rfl
    | cons a as => rfl

/-- Witness for C10: two one-record streams differing only in
`skeleton_inds`. -/
theorem skeleton_inds_irrelevant_witness :
    Option.map (List.map PAFExample.part_affinity_fields)
      (transform_dataset ⟨1, 1, [⟨[(0, 1)]⟩], false⟩
        [⟨2, 2, [[(1, 1), (1, 1)]], [0]⟩]) =
      Option.map (List.map PAFExample.part_affinity_fields)
        (transform_dataset ⟨1, 1, [⟨[(0, 1)]⟩], false⟩
          [⟨2, 2, [[(1, 1), (1, 1)]], [7]⟩]) ∧
    transform_dataset ⟨1, 1, [⟨[(0, 1)]⟩], false⟩ [⟨2, 2, [[(1, 1), (1, 1)]], [0]⟩] =
      transform_dataset
        ⟨1, 1, [(([⟨[(0, 1)]⟩] : List Skeleton).getD 0 ⟨[]⟩)], false⟩
        [⟨2, 2, [[(1, 1), (1, 1)]], [0]⟩] := by
  have h := skeleton_inds_irrelevant ⟨1, 1, [⟨[(0, 1)]⟩], false⟩
    [⟨2, 2, [[(1, 1), (1, 1)]], [0]⟩] [⟨2, 2, [[(1, 1), (1, 1)]], [7]⟩]
    (by simp) (by intro i h1 h2; simp at h1; subst h1; exact ⟨rfl, rfl, rfl⟩)
  simpa using h
end Sleap
